import Mathlib

/-!
Verification development for the Ingenic X1830 CGU clock driver.

The declarative clock table and the output-divider encoding table are
embedded verbatim from `drivers/clk/ingenic/x1830-cgu.c`.  The generic CGU
engine (register field access, PLL math, mux/divider/gate resolvers and the
recursive rate engine) is not part of this repository's sources; those
operations are modelled from the design specification and are marked as
such in their doc comments.
-/

/-! ## Register offsets (from x1830-cgu.c) -/

def CGU_REG_CPCCR : Nat := 0x00
def CGU_REG_CPPCR : Nat := 0x0c
def CGU_REG_APLL : Nat := 0x10
def CGU_REG_MPLL : Nat := 0x14
def CGU_REG_VPLL : Nat := 0xe0
def CGU_REG_EPLL : Nat := 0x58
def CGU_REG_CLKGR0 : Nat := 0x20
def CGU_REG_CLKGR1 : Nat := 0x28
def CGU_REG_DDRCDR : Nat := 0x2c
def CGU_REG_MACCDR : Nat := 0x54
def CGU_REG_MSC0CDR : Nat := 0x68
def CGU_REG_SSICDR : Nat := 0x74
def CGU_REG_MSC1CDR : Nat := 0xa4

/-! ## Descriptor structures (shape of `struct ingenic_cgu_clk_info`) -/

/-- Mux descriptor: register offset, bit shift and bit width. -/
structure MuxInfo where
  reg : Nat
  shift : Nat
  bits : Nat
deriving DecidableEq, Repr

/-- PLL descriptor, fields as in the `.pll = { ... }` initialisers of the
source table.  `od_encoding` is the sparse output-divider encoding table:
entry `od - 1` is the raw register-field encoding of output divider `od`,
or `-1` when that divider is not representable. -/
structure PllInfo where
  reg : Nat
  rate_multiplier : Nat
  m_shift : Nat
  m_bits : Nat
  m_offset : Nat
  n_shift : Nat
  n_bits : Nat
  n_offset : Nat
  od_shift : Nat
  od_bits : Nat
  od_max : Nat
  od_encoding : List Int
  bypass_reg : Nat
  bypass_bit : Nat
  enable_bit : Nat
  stable_bit : Nat
deriving DecidableEq, Repr

/-- Divider descriptor: positional fields of the `.div = { ... }`
initialisers, i.e. register, field shift, ratio multiplier (`div`), field
width (`bits`), change-enable bit, busy bit and stop bit (the last three
use `-1` as an "absent" sentinel). -/
structure DivInfo where
  reg : Nat
  shift : Nat
  div : Nat
  bits : Nat
  ce_bit : Int
  busy_bit : Int
  stop_bit : Int
deriving DecidableEq, Repr

/-- Gate descriptor: register offset and bit. -/
structure GateInfo where
  reg : Nat
  bit : Nat
deriving DecidableEq, Repr

/-- One clock node of the declarative table.  Capabilities are represented
by the presence of the corresponding descriptor (the source uses a bit
mask plus sub-structs).  `parents` is the fixed 4-slot candidate array;
`-1` is the "absent" sentinel, and slots a C initialiser leaves
unspecified are zero-filled exactly as C semantics dictates. -/
structure ClkInfo where
  name : String
  ext : Bool := false
  parents : List Int := [0, 0, 0, 0]
  pll : Option PllInfo := none
  mux : Option MuxInfo := none
  div : Option DivInfo := none
  fixdiv : Option Nat := none
  gate : Option GateInfo := none
deriving DecidableEq, Repr

/-- Default node used only as a `getD` fallback. -/
def clk_absent : ClkInfo := { name := "" }

/-! ## The X1830 tables, verbatim from the source file -/

/-- `pll_od_encoding[64]` from x1830-cgu.c: entry `od - 1` is the raw
3-bit field encoding of output divider `od`, `-1` marks unsupported
dividers. -/
def pll_od_encoding : List Int :=
  [0x0, 0x1, -1, 0x2, -1, -1, -1, 0x3,
    -1,  -1, -1,  -1, -1, -1, -1, 0x4,
    -1,  -1, -1,  -1, -1, -1, -1,  -1,
    -1,  -1, -1,  -1, -1, -1, -1, 0x5,
    -1,  -1, -1,  -1, -1, -1, -1,  -1,
    -1,  -1, -1,  -1, -1, -1, -1,  -1,
    -1,  -1, -1,  -1, -1, -1, -1,  -1,
    -1,  -1, -1,  -1, -1, -1, -1, 0x6]

/-- The `.pll` initialiser of `[X1830_CLK_APLL]`. -/
def apll_pll : PllInfo :=
  { reg := CGU_REG_APLL
    rate_multiplier := 2
    m_shift := 20, m_bits := 9, m_offset := 1
    n_shift := 14, n_bits := 6, n_offset := 1
    od_shift := 11, od_bits := 3, od_max := 64
    od_encoding := pll_od_encoding
    bypass_reg := CGU_REG_CPPCR, bypass_bit := 30
    enable_bit := 0, stable_bit := 3 }

/-- The `.pll` initialiser of `[X1830_CLK_MPLL]`. -/
def mpll_pll : PllInfo :=
  { reg := CGU_REG_MPLL
    rate_multiplier := 2
    m_shift := 20, m_bits := 9, m_offset := 1
    n_shift := 14, n_bits := 6, n_offset := 1
    od_shift := 11, od_bits := 3, od_max := 64
    od_encoding := pll_od_encoding
    bypass_reg := CGU_REG_CPPCR, bypass_bit := 28
    enable_bit := 0, stable_bit := 3 }

/-- The `.pll` initialiser of `[X1830_CLK_VPLL]`.  Note `m_offset` and
`n_offset` are 0 in the source, unlike the other three PLLs. -/
def vpll_pll : PllInfo :=
  { reg := CGU_REG_VPLL
    rate_multiplier := 2
    m_shift := 20, m_bits := 9, m_offset := 0
    n_shift := 14, n_bits := 6, n_offset := 0
    od_shift := 11, od_bits := 3, od_max := 64
    od_encoding := pll_od_encoding
    bypass_reg := CGU_REG_CPPCR, bypass_bit := 24
    enable_bit := 0, stable_bit := 3 }

/-- The `.pll` initialiser of `[X1830_CLK_EPLL]`. -/
def epll_pll : PllInfo :=
  { reg := CGU_REG_EPLL
    rate_multiplier := 2
    m_shift := 20, m_bits := 9, m_offset := 1
    n_shift := 14, n_bits := 6, n_offset := 1
    od_shift := 11, od_bits := 3, od_max := 64
    od_encoding := pll_od_encoding
    bypass_reg := CGU_REG_CPPCR, bypass_bit := 26
    enable_bit := 0, stable_bit := 3 }

/-- `[X1830_CLK_APLL]` (node id 2). -/
def apll_clk : ClkInfo :=
  { name := "apll", parents := [0, -1, -1, -1], pll := some apll_pll }

/-- `[X1830_CLK_MPLL]` (node id 3). -/
def mpll_clk : ClkInfo :=
  { name := "mpll", parents := [0, -1, -1, -1], pll := some mpll_pll }

/-- `[X1830_CLK_VPLL]` (node id 4). -/
def vpll_clk : ClkInfo :=
  { name := "vpll", parents := [0, -1, -1, -1], pll := some vpll_pll }

/-- `[X1830_CLK_EPLL]` (node id 5). -/
def epll_clk : ClkInfo :=
  { name := "epll", parents := [0, -1, -1, -1], pll := some epll_pll }

/-- `[X1830_CLK_SCLKA]` (node id 6). -/
def sclka_clk : ClkInfo :=
  { name := "sclk_a", parents := [-1, 0, 2, -1]
    mux := some ⟨CGU_REG_CPCCR, 30, 2⟩ }

/-- `[X1830_CLK_SSIPLL]` (node id 19). -/
def ssipll_clk : ClkInfo :=
  { name := "ssi_pll", parents := [6, 3, -1, -1]
    mux := some ⟨CGU_REG_SSICDR, 30, 1⟩
    div := some ⟨CGU_REG_SSICDR, 0, 1, 8, 29, 28, 27⟩ }

/-- `[X1830_CLK_SSIMUX]` (node id 21). -/
def ssimux_clk : ClkInfo :=
  { name := "ssi_mux", parents := [0, 20, -1, -1]
    mux := some ⟨CGU_REG_SSICDR, 30, 1⟩ }

/-- `[X1830_CLK_MSC0]` (node id 17). -/
def msc0_clk : ClkInfo :=
  { name := "msc0", parents := [16, -1, -1, -1]
    div := some ⟨CGU_REG_MSC0CDR, 0, 2, 8, 29, 28, 27⟩
    gate := some ⟨CGU_REG_CLKGR0, 4⟩ }

/-- `[X1830_CLK_SFC]` (node id 22). -/
def sfc_clk : ClkInfo :=
  { name := "sfc", parents := [19, -1, -1, -1]
    gate := some ⟨CGU_REG_CLKGR0, 20⟩ }

/-- The `X1830_cgu_clocks[]` table, in node-id order (ids 0..36 as in the
dt-bindings header).  Parent slots a C initialiser leaves unspecified are
zero-filled, exactly as in C: e.g. `mac` and `msc_mux` write only two
slots, so their slots 2 and 3 hold node id 0. -/
def X1830_cgu_clocks : List ClkInfo :=
  [ { name := "ext", ext := true },
    { name := "rtc", ext := true },
    apll_clk,
    mpll_clk,
    vpll_clk,
    epll_clk,
    sclka_clk,
    { name := "cpu_mux", parents := [-1, 6, 3, -1]
      mux := some ⟨CGU_REG_CPCCR, 28, 2⟩ },
    { name := "cpu", parents := [7, -1, -1, -1]
      div := some ⟨CGU_REG_CPCCR, 0, 1, 4, 22, -1, -1⟩ },
    { name := "l2cache", parents := [7, -1, -1, -1]
      div := some ⟨CGU_REG_CPCCR, 4, 1, 4, 22, -1, -1⟩ },
    { name := "ahb0", parents := [-1, 6, 3, -1]
      mux := some ⟨CGU_REG_CPCCR, 26, 2⟩
      div := some ⟨CGU_REG_CPCCR, 8, 1, 4, 21, -1, -1⟩ },
    { name := "ahb2_apb_mux", parents := [-1, 6, 3, -1]
      mux := some ⟨CGU_REG_CPCCR, 24, 2⟩ },
    { name := "ahb2", parents := [11, -1, -1, -1]
      div := some ⟨CGU_REG_CPCCR, 12, 1, 4, 20, -1, -1⟩ },
    { name := "pclk", parents := [11, -1, -1, -1]
      div := some ⟨CGU_REG_CPCCR, 16, 1, 4, 20, -1, -1⟩ },
    { name := "ddr", parents := [-1, 6, 3, -1]
      mux := some ⟨CGU_REG_DDRCDR, 30, 2⟩
      div := some ⟨CGU_REG_DDRCDR, 0, 1, 4, 29, 28, 27⟩
      gate := some ⟨CGU_REG_CLKGR0, 31⟩ },
    { name := "mac", parents := [6, 3, 0, 0]
      mux := some ⟨CGU_REG_MACCDR, 31, 2⟩
      div := some ⟨CGU_REG_MACCDR, 0, 1, 8, 29, 28, 27⟩ },
    { name := "msc_mux", parents := [6, 3, 0, 0]
      mux := some ⟨CGU_REG_MSC0CDR, 31, 2⟩ },
    msc0_clk,
    { name := "msc1", parents := [16, -1, -1, -1]
      div := some ⟨CGU_REG_MSC1CDR, 0, 2, 8, 29, 28, 27⟩
      gate := some ⟨CGU_REG_CLKGR0, 5⟩ },
    ssipll_clk,
    { name := "ssi_pll_div2", parents := [19, 0, 0, 0]
      fixdiv := some 2 },
    ssimux_clk,
    sfc_clk,
    { name := "emc", parents := [12, -1, -1, -1]
      gate := some ⟨CGU_REG_CLKGR0, 0⟩ },
    { name := "efuse", parents := [12, -1, -1, -1]
      gate := some ⟨CGU_REG_CLKGR0, 1⟩ },
    { name := "otg", parents := [0, -1, -1, -1]
      gate := some ⟨CGU_REG_CLKGR0, 3⟩ },
    { name := "ssi0", parents := [21, -1, -1, -1]
      gate := some ⟨CGU_REG_CLKGR0, 6⟩ },
    { name := "i2c0", parents := [13, -1, -1, -1]
      gate := some ⟨CGU_REG_CLKGR0, 7⟩ },
    { name := "i2c1", parents := [13, -1, -1, -1]
      gate := some ⟨CGU_REG_CLKGR0, 8⟩ },
    { name := "i2c2", parents := [13, -1, -1, -1]
      gate := some ⟨CGU_REG_CLKGR0, 9⟩ },
    { name := "uart0", parents := [0, -1, -1, -1]
      gate := some ⟨CGU_REG_CLKGR0, 14⟩ },
    { name := "uart1", parents := [0, -1, -1, -1]
      gate := some ⟨CGU_REG_CLKGR0, 15⟩ },
    { name := "ssi1", parents := [21, -1, -1, -1]
      gate := some ⟨CGU_REG_CLKGR0, 19⟩ },
    { name := "pdma", parents := [0, -1, -1, -1]
      gate := some ⟨CGU_REG_CLKGR0, 21⟩ },
    { name := "tcu", parents := [0, -1, -1, -1]
      gate := some ⟨CGU_REG_CLKGR0, 30⟩ },
    { name := "dtrng", parents := [13, -1, -1, -1]
      gate := some ⟨CGU_REG_CLKGR1, 1⟩ },
    { name := "ost", parents := [0, -1, -1, -1]
      gate := some ⟨CGU_REG_CLKGR1, 11⟩ } ]

/-- The PLL descriptors present in the table, in table order. -/
def X1830_pll_infos : List PllInfo := X1830_cgu_clocks.filterMap (·.pll)

example : X1830_pll_infos = [apll_pll, mpll_pll, vpll_pll, epll_pll] := rfl
example : X1830_cgu_clocks.length = 37 := rfl

/-! ## Register I/O, modelled from the spec (section 4.1) -/

/-- Modelled from the spec: hardware state of one CGU instance, standing in
for the missing engine's register block plus the externally supplied rates
of EXT nodes.  `regs` maps a register offset to its current contents. -/
structure CguState where
  regs : Nat → Nat
  extRates : Nat → Nat

/-- Extract the `width`-bit field at `shift` from a register word. -/
def extractField (word shift width : Nat) : Nat :=
  word / 2 ^ shift % 2 ^ width

/-- Modelled from the spec: `read_field(reg, shift, width)` of the missing
register I/O component. -/
def readField (st : CguState) (reg shift width : Nat) : Nat :=
  extractField (st.regs reg) shift width

/-- Modelled from the spec: `write_field(reg, shift, width, value)` of the
missing register I/O component; a read-modify-write that preserves all
bits outside the field. -/
def writeField (st : CguState) (reg shift width v : Nat) : CguState :=
  { st with
    regs := fun r =>
      if r = reg then
        st.regs reg % 2 ^ shift + v * 2 ^ shift
          + st.regs reg / 2 ^ (shift + width) * 2 ^ (shift + width)
      else st.regs r }

/-- Read a single bit as a Bool. -/
def readBit (st : CguState) (reg bit : Nat) : Bool :=
  extractField (st.regs reg) bit 1 == 1

/-- Write a single bit, preserving the rest of the register. -/
def writeBit (st : CguState) (reg bit : Nat) (b : Bool) : CguState :=
  writeField st reg bit 1 (if b then 1 else 0)

/-! ## PLL math, modelled from the spec (section 4.2)

The spec requires both decode (raw field value to OD multiplier) and
encode (OD multiplier to raw field value); the encoding table itself, with
its `od_max = 64` entries indexed by `od - 1` holding 3-bit raw values,
fixes which direction is the table lookup and which is the scan. -/

/-- Scan helper for `od_decode`: walk the encoding table looking for the
entry equal to the raw field value; `od` is the divider value of the
current entry. -/
def od_scan (raw : Nat) : List Int → Nat → Option Nat
  | [], _ => none
  | e :: rest, od => if e = (raw : Int) then some od else od_scan raw rest (od + 1)

/-- Modelled from the spec: decode a raw OD register-field value to the
output-divider multiplier by scanning the encoding table for the first
matching entry; `none` when no entry matches. -/
def od_decode (enc : List Int) (raw : Nat) : Option Nat :=
  od_scan raw enc 1

/-- Modelled from the spec: encode an output-divider multiplier as its raw
register-field value via the encoding table; `none` on `-1` (invalid)
entries and out-of-table dividers. -/
def od_encode (enc : List Int) (od : Nat) : Option Nat :=
  if od = 0 then none
  else
    let e := enc.getD (od - 1) (-1)
    if e < 0 then none else some e.toNat

/-- Modelled from the spec: the PLL output rate computed from the raw
M/N/OD fields of the PLL's own control word `ctl` (bypass handled by the
caller): `Fout = Fin * M * rate_multiplier / (N * OD)` with
`M = m_raw + m_offset`, `N = n_raw + n_offset` and OD decoded through the
encoding table; `none` when the OD field does not decode. -/
def pll_fields_rate (p : PllInfo) (prate ctl : Nat) : Option Nat :=
  let m := extractField ctl p.m_shift p.m_bits + p.m_offset
  let n := extractField ctl p.n_shift p.n_bits + p.n_offset
  match od_decode p.od_encoding (extractField ctl p.od_shift p.od_bits) with
  | some od => some (prate * m * p.rate_multiplier / (n * od))
  | none => none

/-- Modelled from the spec: PLL rate recomputation including bypass — if
the bypass bit (possibly in a different register than the PLL's own) is
set, the output rate is the parent rate regardless of M/N/OD. -/
def pll_recalc_rate (p : PllInfo) (st : CguState) (prate : Nat) : Option Nat :=
  if readBit st p.bypass_reg p.bypass_bit then some prate
  else pll_fields_rate p prate (st.regs p.reg)

/-- PLL output rate at explicit M, N, OD parameters. -/
def pll_calc_rate (p : PllInfo) (prate m n od : Nat) : Nat :=
  prate * m * p.rate_multiplier / (n * od)

/-- Absolute distance used to compare candidate rates with the target. -/
def errTo (target r : Nat) : Nat := if r ≤ target then target - r else r - target

/-- Output dividers whose raw encoding in the table is valid (not `-1`). -/
def validOds (p : PllInfo) : List Nat :=
  (List.range p.od_max).filterMap fun i =>
    if 0 ≤ p.od_encoding.getD i (-1) then some (i + 1) else none

/-- Modelled from the spec: the (M, N, OD) candidate space of the PLL
rate-setting search — all M and N within the descriptor's bit-width
bounds (offsets applied) paired with every OD that has a valid raw
encoding. -/
def pll_candidates (p : PllInfo) : List (Nat × Nat × Nat) :=
  (List.range (2 ^ p.m_bits)).flatMap fun mr =>
    (List.range (2 ^ p.n_bits)).flatMap fun nr =>
      (validOds p).map fun od => (mr + p.m_offset, nr + p.n_offset, od)

/-- Error of one candidate triple against the target rate. -/
def pllErr (p : PllInfo) (prate target : Nat) (t : Nat × Nat × Nat) : Nat :=
  errTo target (pll_calc_rate p prate t.1 t.2.1 t.2.2)

/-- Keep whichever of two candidates has the smaller error (the earlier
one on ties). -/
def pickBest (p : PllInfo) (prate target : Nat) (a b : Nat × Nat × Nat) :
    Nat × Nat × Nat :=
  if pllErr p prate target b < pllErr p prate target a then b else a

/-- Modelled from the spec: minimise `|Fout - target|` over the candidate
space (exact matches have error 0 and are therefore preferred). -/
def pll_search_best (p : PllInfo) (prate target : Nat) : Option (Nat × Nat × Nat) :=
  match pll_candidates p with
  | [] => none
  | c :: cs => some (cs.foldl (pickBest p prate target) c)

/-- Modelled from the spec: the PLL rate-setting search — reject when even
the best candidate misses the target by more than the (implementation
defined) tolerance `tol`. -/
def pll_set_rate_search (p : PllInfo) (prate target tol : Nat) :
    Option (Nat × Nat × Nat) :=
  match pll_search_best p prate target with
  | none => none
  | some t => if pllErr p prate target t ≤ tol then some t else none

/-- Modelled from the spec: the registration-time configuration check of a
PLL descriptor — decoded M and N must be at least 1 for every programmable
field value, and every programmable OD field value must decode to a valid
entry of the encoding table. -/
def pll_desc_valid (p : PllInfo) : Bool :=
  decide (∀ mr < 2 ^ p.m_bits, 1 ≤ mr + p.m_offset) &&
  decide (∀ nr < 2 ^ p.n_bits, 1 ≤ nr + p.n_offset) &&
  decide (∀ od_raw < 2 ^ p.od_bits, (od_decode p.od_encoding od_raw).isSome = true)

/-! ## Mux, divider and gate resolvers, modelled from the spec (4.3-4.5) -/

/-- First slot of the parent-candidate array holding node id `t`; absent
(`-1`) slots never match since node ids are non-negative. -/
def findSlot : List Int → Nat → Option Nat
  | [], _ => none
  | p :: ps, t => if p = (t : Int) then some 0 else (findSlot ps t).map (· + 1)

/-- Raw value currently held in a node's mux field (0 for non-mux nodes,
which only ever use parent slot 0). -/
def muxRaw (c : ClkInfo) (st : CguState) : Nat :=
  match c.mux with
  | some mx => readField st mx.reg mx.shift mx.bits
  | none => 0

/-- Modelled from the spec: the effective parent of a node — read the mux
field, map the raw value to a slot of `parents`, and fail on absent
slots (an invariant-violation error). -/
def effParent (c : ClkInfo) (st : CguState) : Option Nat :=
  let p := c.parents.getD (muxRaw c st) (-1)
  if p < 0 then none else some p.toNat

/-- Modelled from the spec: `set_parent(node, target)` — locate `target`
among the parent candidates, reject with an error (returning `none`, so
no register is touched) if absent, otherwise write the slot index into
the mux field. -/
def clk_set_parent (c : ClkInfo) (st : CguState) (target : Nat) : Option CguState :=
  match c.mux with
  | none => none
  | some mx =>
    match findSlot c.parents target with
    | none => none
    | some i => some (writeField st mx.reg mx.shift mx.bits i)

/-- Divider ratio decoded from a raw field value:
`(raw + 1) * ratio_multiplier`. -/
def div_decode (d : DivInfo) (raw : Nat) : Nat := (raw + 1) * d.div

/-- Modelled from the spec: raw field value chosen by `set_divider` for a
requested ratio — the smallest representable raw whose decoded ratio is
at least the request ("ceiling" rounding), clamped to the field's
representable range. -/
def set_divider_raw (d : DivInfo) (ratio : Nat) : Nat :=
  min ((ratio + d.div - 1) / d.div - 1) (2 ^ d.bits - 1)

/-- Modelled from the spec: gate `enable` — bump the node-level reference
count, asserting the hardware gate bit on the 0 to 1 transition. -/
def clk_enable (c : ClkInfo) (s : CguState × Int) : CguState × Int :=
  match c.gate with
  | some g => (if s.2 ≤ 0 then writeBit s.1 g.reg g.bit true else s.1, s.2 + 1)
  | none => s

/-- Modelled from the spec: gate `disable` — drop the reference count,
deasserting the hardware gate bit only when the count returns to zero; a
disable with no outstanding enable is a no-op (the count never goes
negative). -/
def clk_disable (c : ClkInfo) (s : CguState × Int) : CguState × Int :=
  match c.gate with
  | some g =>
    if 0 < s.2 then
      (if s.2 = 1 then writeBit s.1 g.reg g.bit false else s.1, s.2 - 1)
    else s
  | none => s

/-- Run a sequence of gate operations (`true` = enable, `false` =
disable) from a starting state. -/
def runGateOps (c : ClkInfo) (ops : List Bool) (s : CguState × Int) :
    CguState × Int :=
  ops.foldl (fun acc op => if op then clk_enable c acc else clk_disable c acc) s

/-! ## Rate engine, modelled from the spec (section 4.6) -/

/-- Table lookup by node id. -/
def clkAt : List ClkInfo → Nat → Option ClkInfo
  | [], _ => none
  | c :: _, 0 => some c
  | _ :: rest, n + 1 => clkAt rest n

/-- Modelled from the spec: recursive `get_rate` — EXT nodes report their
externally supplied rate; every other node resolves its effective parent,
recurses, and applies its own PLL / DIV / FIXDIV transform (GATE does not
affect the computed rate).  `fuel` bounds the recursion depth; the table
is topologically ordered so any fuel larger than the node id suffices. -/
def clk_get_rate (tbl : List ClkInfo) (st : CguState) : Nat → Nat → Option Nat
  | 0, _ => none
  | fuel + 1, id =>
    match clkAt tbl id with
    | none => none
    | some c =>
      if c.ext then some (st.extRates id)
      else
        match effParent c st with
        | none => none
        | some pid =>
          match clk_get_rate tbl st fuel pid with
          | none => none
          | some prate =>
            match c.pll with
            | some p => pll_recalc_rate p st prate
            | none =>
              let r1 := match c.div with
                | some d => prate / div_decode d (readField st d.reg d.shift d.bits)
                | none => prate
              let r2 := match c.fixdiv with
                | some k => r1 / k
                | none => r1
              some r2

/-- The all-zero register state with a 24 MHz external oscillator, used by
concrete witnesses. -/
def zero_state : CguState := ⟨fun _ => 0, fun _ => 24000000⟩

/-- Ratio multiplier of a node's divider descriptor (1 when absent), used
to state decidable table-wide facts. -/
def divMult (c : ClkInfo) : Nat :=
  match c.div with
  | some d => d.div
  | none => 1

/-- Mux field width of a node (a harmless default of 2 when the node has
no mux), used to state decidable table-wide facts. -/
def muxBitsD (c : ClkInfo) : Nat :=
  match c.mux with
  | some mx => mx.bits
  | none => 2

/-- Register state used by the C4 witness: the APLL bypass bit
(CPPCR bit 30) is set, everything else is zero. -/
def bypass_state : CguState :=
  ⟨fun r => if r = CGU_REG_CPPCR then 2 ^ 30 else 0, fun _ => 24000000⟩

/-! ## Helper lemmas -/

/-- Extracting a field out of a word assembled from lower bits, the field
value and higher bits recovers the field value. -/
lemma extract_mid (lo v hi B M : Nat) (hB : 0 < B) (hlo : lo < B) (hv : v < M) :
    (lo + v * B + hi * (B * M)) / B % M = v := by
  have h1 : lo + v * B + hi * (B * M) = lo + (v + hi * M) * B := by ring
  rw [h1, Nat.add_mul_div_right _ _ hB, Nat.div_eq_of_lt hlo, Nat.zero_add,
    Nat.add_mul_mod_self_right, Nat.mod_eq_of_lt hv]

/-- Reading back the field just written yields the written value. -/
lemma readField_writeField (st : CguState) (reg shift width v : Nat)
    (hv : v < 2 ^ width) :
    readField (writeField st reg shift width v) reg shift width = v := by
  have hB : 0 < 2 ^ shift := pow_pos (by norm_num) shift
  have hlo : st.regs reg % 2 ^ shift < 2 ^ shift := Nat.mod_lt _ hB
  simp only [readField, writeField, extractField, if_pos rfl]
  rw [pow_add]
  exact extract_mid _ _ _ _ _ hB hlo hv

/-- A field write leaves every other register untouched. -/
lemma writeField_regs_ne (st : CguState) (reg shift width v r : Nat)
    (h : r ≠ reg) : (writeField st reg shift width v).regs r = st.regs r := by
  simp only [writeField]
  rw [if_neg h]

/-- Reading back the bit just written yields the written value. -/
lemma readBit_writeBit (st : CguState) (reg bit : Nat) (b : Bool) :
    readBit (writeBit st reg bit b) reg bit = b := by
  have h := readField_writeField st reg bit 1 (if b then 1 else 0)
    (by cases b <;> norm_num)
  simp only [readField] at h
  simp only [readBit, writeBit, h]
  cases b <;> rfl

/-- A successful table scan found a matching entry, and the reported
divider lies between the starting index and the end of the table. -/
lemma od_scan_some (raw : Nat) :
    ∀ (enc : List Int) (k od : Nat), od_scan raw enc k = some od →
      (raw : Int) ∈ enc ∧ k ≤ od ∧ od < k + enc.length := by
  intro enc
  induction enc with
  | nil => intro k od h; simp [od_scan] at h
  | cons e rest ih =>
    intro k od h
    by_cases he : e = (raw : Int)
    · rw [od_scan, if_pos he] at h
      obtain rfl : k = od := by exact Option.some.inj h
      exact ⟨by rw [he]; exact List.mem_cons_self _ _, le_refl _, by
        simp only [List.length_cons]; omega⟩
    · rw [od_scan, if_neg he] at h
      obtain ⟨hm, h1, h2⟩ := ih (k + 1) od h
      exact ⟨List.mem_cons_of_mem _ hm, by omega, by
        simp only [List.length_cons]; omega⟩

/-- A successful encode pins down the table entry at `od - 1`. -/
lemma od_encode_some (enc : List Int) (od raw : Nat)
    (h : od_encode enc od = some raw) :
    od ≠ 0 ∧ od - 1 < enc.length ∧ enc.getD (od - 1) (-1) = (raw : Int) := by
  by_cases h0 : od = 0
  · rw [od_encode, if_pos h0] at h; cases h
  · rw [od_encode, if_neg h0] at h
    by_cases hneg : enc.getD (od - 1) (-1) < 0
    · simp only [hneg, if_pos] at h; cases h
    · simp only [hneg, if_neg, if_false] at h
      have hlen : od - 1 < enc.length := by
        by_contra hge
        rw [List.getD_eq_default _ _ (by omega)] at hneg
        exact hneg (by norm_num)
      refine ⟨h0, hlen, ?_⟩
      obtain rfl : (enc.getD (od - 1) (-1)).toNat = raw := Option.some.inj h
      omega

/-- A divider drawn from `validOds` has a valid raw encoding. -/
lemma validOds_encode (p : PllInfo) (od : Nat) (h : od ∈ validOds p) :
    (od_encode p.od_encoding od).isSome = true := by
  simp only [validOds, List.mem_filterMap, List.mem_range] at h
  obtain ⟨i, _, hi⟩ := h
  by_cases hpos : 0 ≤ p.od_encoding.getD i (-1)
  · rw [if_pos hpos] at hi
    obtain rfl : i + 1 = od := Option.some.inj hi
    simp only [od_encode]
    rw [if_neg (by omega)]
    simp only [Nat.add_sub_cancel]
    rw [if_neg (by omega)]
    rfl
  · rw [if_neg hpos] at hi; cases hi

/-- `findSlot` fails when the target occurs in no slot. -/
lemma findSlot_eq_none (t : Nat) :
    ∀ ps : List Int, (t : Int) ∉ ps → findSlot ps t = none := by
  intro ps
  induction ps with
  | nil => intro _; rfl
  | cons p rest ih =>
    intro h
    rw [findSlot, if_neg (by
      intro he; exact h (by rw [← he]; exact List.mem_cons_self _ _))]
    rw [ih (fun hm => h (List.mem_cons_of_mem _ hm))]
    rfl

/-- A successful `findSlot` returns an in-range slot holding the target. -/
lemma findSlot_some (t : Nat) :
    ∀ (ps : List Int) (i : Nat), findSlot ps t = some i →
      i < ps.length ∧ ps.getD i (-1) = (t : Int) := by
  intro ps
  induction ps with
  | nil => intro i h; cases h
  | cons p rest ih =>
    intro i h
    by_cases hp : p = (t : Int)
    · rw [findSlot, if_pos hp] at h
      obtain rfl : 0 = i := Option.some.inj h
      exact ⟨by simp, hp⟩
    · rw [findSlot, if_neg hp] at h
      cases hr : findSlot rest t with
      | none => rw [hr] at h; cases h
      | some j =>
        rw [hr] at h
        obtain rfl : j + 1 = i := Option.some.inj h
        obtain ⟨h1, h2⟩ := ih j hr
        exact ⟨by simp only [List.length_cons]; omega, h2⟩

/-- The running best of the candidate fold never has larger error than
its starting point. -/
lemma foldl_pickBest_le_init (p : PllInfo) (prate target : Nat) :
    ∀ (l : List (Nat × Nat × Nat)) (a : Nat × Nat × Nat),
      pllErr p prate target (l.foldl (pickBest p prate target) a) ≤
        pllErr p prate target a := by
  intro l
  induction l with
  | nil => intro a; simp
  | cons b t ih =>
    intro a
    simp only [List.foldl_cons]
    refine le_trans (ih (pickBest p prate target a b)) ?_
    unfold pickBest
    split
    · omega
    · exact le_refl _

/-- The fold's result has no larger error than any list element. -/
lemma foldl_pickBest_le_mem (p : PllInfo) (prate target : Nat) :
    ∀ (l : List (Nat × Nat × Nat)) (a x : Nat × Nat × Nat), x ∈ l →
      pllErr p prate target (l.foldl (pickBest p prate target) a) ≤
        pllErr p prate target x := by
  intro l
  induction l with
  | nil => intro a x hx; cases hx
  | cons b t ih =>
    intro a x hx
    simp only [List.foldl_cons]
    rcases List.mem_cons.mp hx with rfl | hx
    · refine le_trans (foldl_pickBest_le_init p prate target t _) ?_
      unfold pickBest
      split
      · exact le_refl _
      · omega
    · exact ih _ x hx

/-- The fold's result is the starting point or a list element. -/
lemma foldl_pickBest_mem (p : PllInfo) (prate target : Nat) :
    ∀ (l : List (Nat × Nat × Nat)) (a : Nat × Nat × Nat),
      l.foldl (pickBest p prate target) a ∈ a :: l := by
  intro l
  induction l with
  | nil => intro a; simp
  | cons b t ih =>
    intro a
    simp only [List.foldl_cons]
    have h := ih (pickBest p prate target a b)
    rcases List.mem_cons.mp h with h | h
    · rw [h]
      unfold pickBest
      split
      · exact List.mem_cons_of_mem _ (List.mem_cons_self _ _)
      · exact List.mem_cons_self _ _
    · exact List.mem_cons_of_mem _ (List.mem_cons_of_mem _ h)

/-- Zero error means the candidate's rate equals the target. -/
lemma errTo_eq_zero (target r : Nat) (h : errTo target r = 0) : r = target := by
  unfold errTo at h
  split at h <;> omega

/-- Ceiling division: `req ≤ ceil(req / m) * m`. -/
lemma ceil_mul_ge (m req : Nat) (hm : 0 < m) :
    req ≤ (req + m - 1) / m * m := by
  have h := Nat.div_add_mod (req + m - 1) m
  have hr : (req + m - 1) % m < m := Nat.mod_lt _ hm
  rw [mul_comm]
  generalize hP : m * ((req + m - 1) / m) = P at *
  omega

/-- A node id found by `clkAt` is within the table. -/
lemma clkAt_lt_length : ∀ (tbl : List ClkInfo) (n : Nat) (c : ClkInfo),
    clkAt tbl n = some c → n < tbl.length := by
  intro tbl
  induction tbl with
  | nil => intro n c h; cases h
  | cons d rest ih =>
    intro n c h
    cases n with
    | zero => simp only [List.length_cons]; omega
    | succ k =>
      have := ih k c h
      simp only [List.length_cons]; omega

/-- Unfolding lemma for one step of the rate engine. -/
lemma clk_get_rate_succ (tbl : List ClkInfo) (st : CguState) (fuel id : Nat) :
    clk_get_rate tbl st (fuel + 1) id =
      match clkAt tbl id with
      | none => none
      | some c =>
        if c.ext then some (st.extRates id)
        else
          match effParent c st with
          | none => none
          | some pid =>
            match clk_get_rate tbl st fuel pid with
            | none => none
            | some prate =>
              match c.pll with
              | some p => pll_recalc_rate p st prate
              | none =>
                let r1 := match c.div with
                  | some d => prate / div_decode d (readField st d.reg d.shift d.bits)
                  | none => prate
                let r2 := match c.fixdiv with
                  | some k => r1 / k
                  | none => r1
                some r2 := rfl


/-- Length of the embedded OD encoding table. -/
lemma pll_od_encoding_len : pll_od_encoding.length = 64 := rfl

/-- Every entry of the OD encoding table is at most 6. -/
lemma pll_od_encoding_le : ∀ e ∈ pll_od_encoding, e ≤ 6 := by decide

/-- Every `getD` access of the OD encoding table is at most 6. -/
lemma pll_od_encoding_getD_le (i : Nat) : pll_od_encoding.getD i (-1) ≤ 6 := by
  by_cases h : i < pll_od_encoding.length
  · have hb : ∀ j < 64, pll_od_encoding.getD j (-1) ≤ 6 := by decide
    exact hb i (by rw [pll_od_encoding_len] at h; omega)
  · rw [List.getD_eq_default _ _ (by omega)]
    norm_num

/-! ## Claim theorems -/

/-- C2: over the non-(-1) subset of `pll_od_encoding`, OD decode and
encode are mutually inverse — every valid OD multiplier round-trips
through its raw encoding, and every raw field value that decodes
round-trips through the decoded multiplier. -/
theorem c2_od_encode_decode_roundtrip : ∀ od raw : Nat,
    (od_encode pll_od_encoding od = some raw →
      od_decode pll_od_encoding raw = some od) ∧
    (od_decode pll_od_encoding raw = some od →
      od_encode pll_od_encoding od = some raw) := by
  have hb : ∀ od < 65, ∀ raw < 8,
      (od_encode pll_od_encoding od = some raw →
        od_decode pll_od_encoding raw = some od) ∧
      (od_decode pll_od_encoding raw = some od →
        od_encode pll_od_encoding od = some raw) := by decide
  intro od raw
  constructor
  · intro h
    obtain ⟨h0, hlen, hget⟩ := od_encode_some _ _ _ h
    rw [pll_od_encoding_len] at hlen
    have hraw : raw < 8 := by
      have h6 := pll_od_encoding_getD_le (od - 1)
      rw [hget] at h6
      omega
    exact (hb od (by omega) raw hraw).1 h
  · intro h
    obtain ⟨hmem, h1, h2⟩ := od_scan_some raw pll_od_encoding 1 od h
    rw [pll_od_encoding_len] at h2
    have hraw : raw < 8 := by
      have h6 := pll_od_encoding_le _ hmem
      omega
    exact (hb od (by omega) raw hraw).2 h

/-- Witness for C2 at OD multiplier 2 and raw value 1. -/
theorem c2_witness :
    od_encode pll_od_encoding 2 = some 1 ∧
    od_decode pll_od_encoding 1 = some 2 :=
  ⟨by decide, (c2_od_encode_decode_roundtrip 2 1).1 (by decide)⟩

/-- C5 counterexample: the claim fails on the table — `vpll` is a PLL
descriptor with `m_offset = 0`, so the programmable M field value 0
decodes to M = 0 (not ≥ 1); moreover for every descriptor the
programmable OD field value 7 decodes to no valid entry of the encoding
table. -/
theorem c5_counterexample :
    vpll_pll ∈ X1830_pll_infos ∧
    (0 : Nat) < 2 ^ vpll_pll.m_bits ∧
    0 + vpll_pll.m_offset = 0 ∧
    (7 : Nat) < 2 ^ apll_pll.od_bits ∧
    od_decode apll_pll.od_encoding 7 = none := by decide

set_option maxRecDepth 4000 in
/-- C5 amended: apll, mpll and epll (offsets 1) keep every decodable M
and N at least 1, vpll (offsets 0) does not; OD raw values other than 7
decode to valid entries while raw 7 never does; and the registration-time
validity check (modelled from the spec) reports every descriptor as a
configuration error rather than deferring the violation to runtime. -/
theorem c5_pll_descriptor_bounds :
    (∀ p ∈ X1830_pll_infos, p ≠ vpll_pll →
      (∀ mr < 2 ^ p.m_bits, 1 ≤ mr + p.m_offset) ∧
      (∀ nr < 2 ^ p.n_bits, 1 ≤ nr + p.n_offset)) ∧
    (∀ p ∈ X1830_pll_infos, ∀ raw < 2 ^ p.od_bits, raw ≠ 7 →
      (od_decode p.od_encoding raw).isSome = true) ∧
    (∀ p ∈ X1830_pll_infos, pll_desc_valid p = false) := by decide

/-- Witness for C5 at the apll descriptor and field value 0. -/
theorem c5_witness :
    apll_pll ∈ X1830_pll_infos ∧
    1 ≤ 0 + apll_pll.m_offset ∧
    (od_decode apll_pll.od_encoding 0).isSome = true ∧
    pll_desc_valid apll_pll = false :=
  ⟨by decide,
    ((c5_pll_descriptor_bounds.1 apll_pll (by decide) (by decide)).1 0 (by decide)),
    (c5_pll_descriptor_bounds.2.1 apll_pll (by decide) 0 (by decide) (by decide)),
    (c5_pll_descriptor_bounds.2.2 apll_pll (by decide))⟩

/-- C6 counterexample: the claim fails on the table — `sclk_a` has a
2-bit mux field, so raw value 0 is reachable, yet parent slot 0 is the
absent (`-1`) sentinel. -/
theorem c6_counterexample :
    sclka_clk ∈ X1830_cgu_clocks ∧
    sclka_clk.mux = some ⟨CGU_REG_CPCCR, 30, 2⟩ ∧
    (0 : Nat) < 2 ^ 2 ∧
    sclka_clk.parents.getD 0 (-1) = -1 := by decide

/-- C6 amended: every non-absent `parents` entry of every node is a valid
node id within the table's range, but reachable mux field values can
select absent slots; the parent resolver reports such a selection as an
error (`none`) instead of returning a parent. -/
theorem c6_parent_candidates_in_range :
    (∀ c ∈ X1830_cgu_clocks, ∀ i < 4, 0 ≤ c.parents.getD i (-1) →
      (c.parents.getD i (-1)).toNat < X1830_cgu_clocks.length) ∧
    (∀ (c : ClkInfo) (st : CguState), c.parents.getD (muxRaw c st) (-1) < 0 →
      effParent c st = none) := by
  constructor
  · decide
  · intro c st h
    simp only [effParent]
    rw [if_pos h]

/-- Witness for C6: slot 2 of `sclk_a` holds a valid id, and with the mux
field reading 0 the resolver rejects the absent slot 0. -/
theorem c6_witness :
    (sclka_clk.parents.getD 2 (-1)).toNat < X1830_cgu_clocks.length ∧
    effParent sclka_clk zero_state = none :=
  ⟨c6_parent_candidates_in_range.1 sclka_clk (by decide) 2 (by decide) (by decide),
    c6_parent_candidates_in_range.2 sclka_clk zero_state (by decide)⟩

/-- Every divider descriptor of the table has a positive ratio
multiplier. -/
lemma divMult_pos : ∀ c ∈ X1830_cgu_clocks, 0 < divMult c := by decide

/-- C7: for every divider descriptor of the table, the decoded ratio
`(raw + 1) * ratio_multiplier` is strictly monotone in the raw field
value, and for any requested ratio representable in the field the raw
value chosen by `set_divider` never decodes to a ratio smaller than the
request (ceiling property). -/
theorem c7_divider_monotone_ceiling : ∀ c ∈ X1830_cgu_clocks, ∀ d, c.div = some d →
    (∀ r1 r2, r1 < r2 → div_decode d r1 < div_decode d r2) ∧
    (∀ req, req ≤ 2 ^ d.bits * d.div →
      req ≤ div_decode d (set_divider_raw d req)) := by
  intro c hc d hd
  have hpos : 0 < d.div := by
    have h := divMult_pos c hc
    simp only [divMult, hd] at h
    exact h
  constructor
  · intro r1 r2 h12
    unfold div_decode
    exact Nat.mul_lt_mul_of_lt_of_le (by omega) (le_refl _) hpos
  · intro req hreq
    unfold div_decode set_divider_raw
    rcases le_total ((req + d.div - 1) / d.div - 1) (2 ^ d.bits - 1) with hmin | hmin
    · rw [min_eq_left hmin]
      rcases Nat.eq_zero_or_pos ((req + d.div - 1) / d.div) with hq | hq
      · have hlt : req + d.div - 1 < d.div := (Nat.div_eq_zero_iff hpos).mp hq
        have hreq0 : req = 0 := by omega
        simp [hreq0]
      · have h1 : (req + d.div - 1) / d.div - 1 + 1 = (req + d.div - 1) / d.div := by
          omega
        rw [h1]
        exact ceil_mul_ge d.div req hpos
    · rw [min_eq_right hmin]
      have hp : 0 < 2 ^ d.bits := pow_pos (by norm_num) _
      have h2 : 2 ^ d.bits - 1 + 1 = 2 ^ d.bits := by omega
      rw [h2]
      exact hreq

/-- Witness for C7 at the msc0 divider (ratio multiplier 2, 8-bit field)
with raw values 0 < 1 and requested ratio 7. -/
theorem c7_witness :
    msc0_clk ∈ X1830_cgu_clocks ∧
    div_decode ⟨CGU_REG_MSC0CDR, 0, 2, 8, 29, 28, 27⟩ 0 <
      div_decode ⟨CGU_REG_MSC0CDR, 0, 2, 8, 29, 28, 27⟩ 1 ∧
    7 ≤ div_decode ⟨CGU_REG_MSC0CDR, 0, 2, 8, 29, 28, 27⟩
      (set_divider_raw ⟨CGU_REG_MSC0CDR, 0, 2, 8, 29, 28, 27⟩ 7) :=
  ⟨by decide,
    (c7_divider_monotone_ceiling msc0_clk (by decide) _ rfl).1 0 1 (by decide),
    (c7_divider_monotone_ceiling msc0_clk (by decide) _ rfl).2 7 (by decide)⟩

/-- C8: for every gate-capable node, after `enable; enable; disable` from
an idle state the hardware gate bit is still asserted, the next `disable`
deasserts it, and the node's reference count stays non-negative under any
sequence of enable/disable calls. -/
theorem c8_gate_refcount : ∀ c ∈ X1830_cgu_clocks, ∀ g, c.gate = some g → ∀ st,
    readBit (clk_disable c (clk_enable c (clk_enable c (st, 0)))).1
      g.reg g.bit = true ∧
    readBit (clk_disable c (clk_disable c (clk_enable c (clk_enable c
      (st, 0))))).1 g.reg g.bit = false ∧
    ∀ ops : List Bool, 0 ≤ (runGateOps c ops (st, 0)).2 := by
  intro c _hc g hg st
  have e1 : clk_enable c (st, (0 : Int)) = (writeBit st g.reg g.bit true, 1) := by
    simp [clk_enable, hg]
  have e2 : clk_enable c (writeBit st g.reg g.bit true, (1 : Int)) =
      (writeBit st g.reg g.bit true, 2) := by
    simp [clk_enable, hg]
  have e3 : clk_disable c (writeBit st g.reg g.bit true, (2 : Int)) =
      (writeBit st g.reg g.bit true, 1) := by
    simp [clk_disable, hg]
  have e4 : clk_disable c (writeBit st g.reg g.bit true, (1 : Int)) =
      (writeBit (writeBit st g.reg g.bit true) g.reg g.bit false, 0) := by
    simp [clk_disable, hg]
  refine ⟨?_, ?_, ?_⟩
  · rw [e1, e2, e3]
    exact readBit_writeBit st g.reg g.bit true
  · rw [e1, e2, e3, e4]
    exact readBit_writeBit _ g.reg g.bit false
  · intro ops
    have key : ∀ (l : List Bool) (s : CguState × Int), 0 ≤ s.2 →
        0 ≤ (runGateOps c l s).2 := by
      intro l
      induction l with
      | nil => intro s h; exact h
      | cons op rest ih =>
        intro s h
        simp only [runGateOps, List.foldl_cons]
        have hstep : 0 ≤ (if op then clk_enable c s else clk_disable c s).2 := by
          cases op
          · simp only [if_neg Bool.false_ne_true, clk_disable]
            cases hcg : c.gate with
            | none => exact h
            | some g2 =>
              show 0 ≤ (if 0 < s.2 then
                  (if s.2 = 1 then writeBit s.1 g2.reg g2.bit false else s.1,
                    s.2 - 1)
                else s).2
              by_cases hp : 0 < s.2
              · rw [if_pos hp]
                show 0 ≤ s.2 - 1
                omega
              · rw [if_neg hp]
                exact h
          · simp only [if_pos rfl, clk_enable]
            cases hcg : c.gate with
            | none => exact h
            | some g2 =>
              show 0 ≤ s.2 + 1
              omega
        exact ih _ hstep
    exact key ops (st, 0) (le_refl 0)

/-- Witness for C8 at the sfc gate (CLKGR0 bit 20) from the zero state. -/
theorem c8_witness :
    readBit (clk_disable sfc_clk (clk_enable sfc_clk (clk_enable sfc_clk
      (zero_state, 0)))).1 CGU_REG_CLKGR0 20 = true ∧
    readBit (clk_disable sfc_clk (clk_disable sfc_clk (clk_enable sfc_clk
      (clk_enable sfc_clk (zero_state, 0))))).1 CGU_REG_CLKGR0 20 = false ∧
    0 ≤ (runGateOps sfc_clk [true, true, false, false, false] (zero_state, 0)).2 := by
  have h := c8_gate_refcount sfc_clk (by decide) ⟨CGU_REG_CLKGR0, 20⟩ rfl zero_state
  exact ⟨h.1, h.2.1, h.2.2 [true, true, false, false, false]⟩

/-- Every node of the table has a 4-slot parent array. -/
lemma parents_len4 : ∀ c ∈ X1830_cgu_clocks, c.parents.length = 4 := by decide

/-- In the table, every non-absent parent slot index fits in the node's
mux field width. -/
lemma slot_lt_muxBits : ∀ c ∈ X1830_cgu_clocks, ∀ i < 4,
    0 ≤ c.parents.getD i (-1) → i < 2 ^ muxBitsD c := by decide

/-- C9: for every mux-capable node, `set_parent` fails (touching no
register) whenever the target is not among the parent candidates, and
when the target occupies slot `i` it writes exactly `i` into the node's
mux field, leaving every other register unchanged. -/
theorem c9_set_parent_validation :
    ∀ c ∈ X1830_cgu_clocks, ∀ mx, c.mux = some mx → ∀ st (target : Nat),
    ((target : Int) ∉ c.parents → clk_set_parent c st target = none) ∧
    (∀ i, findSlot c.parents target = some i →
      clk_set_parent c st target =
        some (writeField st mx.reg mx.shift mx.bits i) ∧
      readField (writeField st mx.reg mx.shift mx.bits i)
        mx.reg mx.shift mx.bits = i ∧
      c.parents.getD i (-1) = (target : Int) ∧
      ∀ r, r ≠ mx.reg →
        (writeField st mx.reg mx.shift mx.bits i).regs r = st.regs r) := by
  intro c hc mx hmx st target
  constructor
  · intro hnm
    simp only [clk_set_parent, hmx, findSlot_eq_none target c.parents hnm]
  · intro i hi
    obtain ⟨hlen, hget⟩ := findSlot_some target c.parents i hi
    have hi4 : i < 4 := by rw [parents_len4 c hc] at hlen; exact hlen
    have h0 : 0 ≤ c.parents.getD i (-1) := by
      rw [hget]
      exact Int.natCast_nonneg target
    have hbits : i < 2 ^ mx.bits := by
      have h := slot_lt_muxBits c hc i hi4 h0
      simpa [muxBitsD, hmx] using h
    refine ⟨?_, readField_writeField st mx.reg mx.shift mx.bits i hbits, hget,
      fun r hr => writeField_regs_ne st _ _ _ _ r hr⟩
    simp only [clk_set_parent, hmx, hi]

/-- Witness for C9 at `sclk_a`: target 5 (epll) is not a candidate and is
rejected; target 2 (apll) occupies slot 2 and the mux field reads back
2 after the write. -/
theorem c9_witness :
    clk_set_parent sclka_clk zero_state 5 = none ∧
    clk_set_parent sclka_clk zero_state 2 =
      some (writeField zero_state CGU_REG_CPCCR 30 2 2) ∧
    readField (writeField zero_state CGU_REG_CPCCR 30 2 2)
      CGU_REG_CPCCR 30 2 = 2 := by
  have h1 := (c9_set_parent_validation sclka_clk (by decide)
    ⟨CGU_REG_CPCCR, 30, 2⟩ rfl zero_state 5).1 (by decide)
  have h2 := (c9_set_parent_validation sclka_clk (by decide)
    ⟨CGU_REG_CPCCR, 30, 2⟩ rfl zero_state 2).2 2 (by decide)
  exact ⟨h1, h2.1, h2.2.1⟩

/-- C10: `ssi_pll` (id 19) and `ssi_mux` (id 21) carry the identical mux
descriptor (SSICDR bit 30, width 1); both nodes' parent selection is
decided by that one bit in every register state, and a successful
`set_parent` on either node moves the other node's selection to the slot
index just written. -/
theorem c10_ssi_shared_mux_field :
    clkAt X1830_cgu_clocks 19 = some ssipll_clk ∧
    clkAt X1830_cgu_clocks 21 = some ssimux_clk ∧
    ssipll_clk.mux = ssimux_clk.mux ∧
    ssipll_clk.mux = some ⟨CGU_REG_SSICDR, 30, 1⟩ ∧
    (∀ st, muxRaw ssipll_clk st = muxRaw ssimux_clk st) ∧
    (∀ st target st', clk_set_parent ssipll_clk st target = some st' →
      ∃ i, findSlot ssipll_clk.parents target = some i ∧
        muxRaw ssimux_clk st' = i ∧ muxRaw ssipll_clk st' = i) ∧
    (∀ st target st', clk_set_parent ssimux_clk st target = some st' →
      ∃ i, findSlot ssimux_clk.parents target = some i ∧
        muxRaw ssipll_clk st' = i ∧ muxRaw ssimux_clk st' = i) := by
  refine ⟨rfl, rfl, rfl, rfl, fun st => rfl, ?_, ?_⟩
  · intro st target st' h
    simp only [clk_set_parent] at h
    cases hfs : findSlot ssipll_clk.parents target with
    | none =>
      rw [show ssipll_clk.mux = some ⟨CGU_REG_SSICDR, 30, 1⟩ from rfl] at h
      simp only [hfs] at h
      exact Option.noConfusion h
    | some i =>
      rw [show ssipll_clk.mux = some ⟨CGU_REG_SSICDR, 30, 1⟩ from rfl] at h
      simp only [hfs] at h
      obtain rfl : writeField st CGU_REG_SSICDR 30 1 i = st' := Option.some.inj h
      obtain ⟨hlen, hget⟩ := findSlot_some target ssipll_clk.parents i hfs
      have hi2 : i < 2 ^ 1 := by
        have h4 : i < 4 := by simpa using hlen
        interval_cases i
        · norm_num
        · norm_num
        · exfalso
          rw [show ssipll_clk.parents.getD 2 (-1) = -1 from rfl] at hget
          omega
        · exfalso
          rw [show ssipll_clk.parents.getD 3 (-1) = -1 from rfl] at hget
          omega
      have hr := readField_writeField st CGU_REG_SSICDR 30 1 i hi2
      exact ⟨i, rfl, hr, hr⟩
  · intro st target st' h
    simp only [clk_set_parent] at h
    cases hfs : findSlot ssimux_clk.parents target with
    | none =>
      rw [show ssimux_clk.mux = some ⟨CGU_REG_SSICDR, 30, 1⟩ from rfl] at h
      simp only [hfs] at h
      exact Option.noConfusion h
    | some i =>
      rw [show ssimux_clk.mux = some ⟨CGU_REG_SSICDR, 30, 1⟩ from rfl] at h
      simp only [hfs] at h
      obtain rfl : writeField st CGU_REG_SSICDR 30 1 i = st' := Option.some.inj h
      obtain ⟨hlen, hget⟩ := findSlot_some target ssimux_clk.parents i hfs
      have hi2 : i < 2 ^ 1 := by
        have h4 : i < 4 := by simpa using hlen
        interval_cases i
        · norm_num
        · norm_num
        · exfalso
          rw [show ssimux_clk.parents.getD 2 (-1) = -1 from rfl] at hget
          omega
        · exfalso
          rw [show ssimux_clk.parents.getD 3 (-1) = -1 from rfl] at hget
          omega
      have hr := readField_writeField st CGU_REG_SSICDR 30 1 i hi2
      exact ⟨i, rfl, hr, hr⟩

/-- Witness for C10: reparenting `ssi_pll` to mpll (slot 1) makes
`ssi_mux` read slot 1 as well. -/
theorem c10_witness :
    clk_set_parent ssipll_clk zero_state 3 =
      some (writeField zero_state CGU_REG_SSICDR 30 1 1) ∧
    muxRaw ssimux_clk (writeField zero_state CGU_REG_SSICDR 30 1 1) = 1 := by
  have h := c10_ssi_shared_mux_field.2.2.2.2.2.1 zero_state 3
    (writeField zero_state CGU_REG_SSICDR 30 1 1) rfl
  obtain ⟨i, hfs, hm, _⟩ := h
  obtain rfl : i = 1 := by
    rw [show findSlot ssipll_clk.parents 3 = some 1 from by decide] at hfs
    exact (Option.some.inj hfs).symm
  exact ⟨rfl, hm⟩

/-- Field extraction from a register word packed with the X1830 PLL
geometry (OD at bit 11/width 3, N at 14/6, M at 20/9) recovers each raw
field. -/
lemma x1830_pll_extract (m_raw n_raw od_raw : Nat)
    (hm : m_raw < 2 ^ 9) (hn : n_raw < 2 ^ 6) (ho : od_raw < 2 ^ 3) :
    extractField (od_raw * 2 ^ 11 + n_raw * 2 ^ 14 + m_raw * 2 ^ 20) 20 9 = m_raw ∧
    extractField (od_raw * 2 ^ 11 + n_raw * 2 ^ 14 + m_raw * 2 ^ 20) 14 6 = n_raw ∧
    extractField (od_raw * 2 ^ 11 + n_raw * 2 ^ 14 + m_raw * 2 ^ 20) 11 3 = od_raw := by
  refine ⟨?_, ?_, ?_⟩
  · have h1 : od_raw * 2 ^ 11 + n_raw * 2 ^ 14 + m_raw * 2 ^ 20 =
        (od_raw * 2 ^ 11 + n_raw * 2 ^ 14) + m_raw * 2 ^ 20 + 0 * (2 ^ 20 * 2 ^ 9) := by
      ring
    rw [extractField, h1]
    exact extract_mid _ _ _ _ _ (by norm_num) (by norm_num at ho hn ⊢; omega) hm
  · have h1 : od_raw * 2 ^ 11 + n_raw * 2 ^ 14 + m_raw * 2 ^ 20 =
        od_raw * 2 ^ 11 + n_raw * 2 ^ 14 + m_raw * (2 ^ 14 * 2 ^ 6) := by
      ring
    rw [extractField, h1]
    exact extract_mid _ _ _ _ _ (by norm_num) (by norm_num at ho ⊢; omega) hn
  · have h1 : od_raw * 2 ^ 11 + n_raw * 2 ^ 14 + m_raw * 2 ^ 20 =
        0 + od_raw * 2 ^ 11 + (n_raw + m_raw * 2 ^ 6) * (2 ^ 11 * 2 ^ 3) := by
      ring
    rw [extractField, h1]
    exact extract_mid _ _ _ _ _ (by norm_num) (by norm_num) ho

/-- `pll_fields_rate` on a register word packed with given raw fields
computes the PLL formula at the decoded parameters, for any descriptor
with the X1830 field geometry. -/
lemma pll_fields_rate_packed (p : PllInfo)
    (hms : p.m_shift = 20) (hmb : p.m_bits = 9)
    (hns : p.n_shift = 14) (hnb : p.n_bits = 6)
    (hos : p.od_shift = 11) (hob : p.od_bits = 3)
    (prate m_raw n_raw od_raw od : Nat)
    (hm : m_raw < 2 ^ 9) (hn : n_raw < 2 ^ 6) (ho : od_raw < 2 ^ 3)
    (hdec : od_decode p.od_encoding od_raw = some od) :
    pll_fields_rate p prate
      (od_raw * 2 ^ p.od_shift + n_raw * 2 ^ p.n_shift + m_raw * 2 ^ p.m_shift) =
      some (prate * (m_raw + p.m_offset) * p.rate_multiplier /
        ((n_raw + p.n_offset) * od)) := by
  obtain ⟨e1, e2, e3⟩ := x1830_pll_extract m_raw n_raw od_raw hm hn ho
  simp only [pll_fields_rate, hms, hmb, hns, hnb, hos, hob]
  rw [e1, e2, e3, hdec]

/-- C1: for every PLL descriptor of the table and all raw M, N, OD field
values within the descriptor's bit widths whose OD decodes, the rate
recomputed from the packed register word is exactly
`Fin * M * rate_multiplier / (N * OD)` in integer arithmetic, with
`M = m_raw + m_offset`, `N = n_raw + n_offset` and `rate_multiplier = 2`
for all four PLLs. -/
theorem c1_pll_rate_formula : ∀ p ∈ X1830_pll_infos,
    ∀ prate m_raw n_raw od_raw od : Nat,
    m_raw < 2 ^ p.m_bits → n_raw < 2 ^ p.n_bits → od_raw < 2 ^ p.od_bits →
    od_decode p.od_encoding od_raw = some od →
    pll_fields_rate p prate
      (od_raw * 2 ^ p.od_shift + n_raw * 2 ^ p.n_shift + m_raw * 2 ^ p.m_shift) =
      some (prate * (m_raw + p.m_offset) * p.rate_multiplier /
        ((n_raw + p.n_offset) * od)) ∧
    p.rate_multiplier = 2 := by
  intro p hp prate m_raw n_raw od_raw od hm hn ho hdec
  have hp4 : p = apll_pll ∨ p = mpll_pll ∨ p = vpll_pll ∨ p = epll_pll := by
    have he : X1830_pll_infos = [apll_pll, mpll_pll, vpll_pll, epll_pll] := rfl
    rw [he] at hp
    simpa using hp
  rcases hp4 with rfl | rfl | rfl | rfl <;>
    exact ⟨pll_fields_rate_packed _ rfl rfl rfl rfl rfl rfl prate m_raw n_raw od_raw od
      hm hn ho hdec, rfl⟩

/-- Witness for C1 at the apll descriptor, `Fin` = 24 MHz, raw fields
M = 20 (decoded 21), N = 0 (decoded 1), OD = 0 (decoded divider 1):
the computed rate is 1008 MHz. -/
theorem c1_witness :
    pll_fields_rate apll_pll 24000000
      (0 * 2 ^ apll_pll.od_shift + 0 * 2 ^ apll_pll.n_shift + 20 * 2 ^ apll_pll.m_shift) =
      some (24000000 * (20 + apll_pll.m_offset) * apll_pll.rate_multiplier /
        ((0 + apll_pll.n_offset) * 1)) ∧
    24000000 * (20 + apll_pll.m_offset) * apll_pll.rate_multiplier /
      ((0 + apll_pll.n_offset) * 1) = 1008000000 :=
  ⟨(c1_pll_rate_formula apll_pll (by decide) 24000000 20 0 0 1
      (by decide) (by decide) (by decide) (by decide)).1,
    by decide⟩

/-- Table fact: every PLL-carrying node is non-external, has no mux, and
has node 0 (the external oscillator) in parent slot 0. -/
lemma pll_nodes_shape : ∀ j < 37, ((clkAt X1830_cgu_clocks j).map (fun d =>
    (!d.pll.isSome || (d.mux == none && d.parents.getD 0 (-1) == 0 &&
      d.ext == false)))).getD true = true := by decide

/-- C4: every PLL descriptor's bypass bit lives in a register distinct
from the PLL's own, and whenever the bypass bit is set the rate of the
PLL node equals the rate of its effective parent, for every register
state (hence for all programmed M/N/OD values). -/
theorem c4_bypass_forces_parent_rate :
    (∀ p ∈ X1830_pll_infos, p.bypass_reg ≠ p.reg) ∧
    (∀ (st : CguState) (id : Nat) (c : ClkInfo) (pi : PllInfo),
      clkAt X1830_cgu_clocks id = some c → c.pll = some pi →
      readBit st pi.bypass_reg pi.bypass_bit = true →
      ∀ pid, effParent c st = some pid →
      clk_get_rate X1830_cgu_clocks st 37 id =
        clk_get_rate X1830_cgu_clocks st 37 pid) := by
  constructor
  · decide
  · intro st id c pi hc hpll hbyp pid hpar
    have hid : id < 37 := by
      have h := clkAt_lt_length X1830_cgu_clocks id c hc
      simpa using h
    have hf := pll_nodes_shape id hid
    rw [hc] at hf
    simp only [Option.map_some', Option.getD_some] at hf
    rw [hpll] at hf
    simp only [Option.isSome_some, Bool.not_true, Bool.false_or,
      Bool.and_eq_true, beq_iff_eq] at hf
    obtain ⟨⟨hmux, hp0⟩, hext⟩ := hf
    have hpid : pid = 0 := by
      simp only [effParent, muxRaw, hmux, hp0] at hpar
      norm_num at hpar
      omega
    subst hpid
    have hext0 : clk_get_rate X1830_cgu_clocks st 36 0 = some (st.extRates 0) := rfl
    have hext37 : clk_get_rate X1830_cgu_clocks st 37 0 = some (st.extRates 0) := rfl
    rw [hext37, show (37 : Nat) = 36 + 1 from rfl, clk_get_rate_succ]
    simp only [hc, hext, if_false, hpar, hext0, hpll, Bool.false_eq_true]
    simp [pll_recalc_rate, hbyp]

/-- Witness for C4: with the APLL bypass bit set (CPPCR bit 30), node 2
(apll) reports the same rate as node 0 (the external oscillator). -/
theorem c4_witness :
    readBit bypass_state apll_pll.bypass_reg apll_pll.bypass_bit = true ∧
    clk_get_rate X1830_cgu_clocks bypass_state 37 2 =
      clk_get_rate X1830_cgu_clocks bypass_state 37 0 :=
  ⟨by decide,
    c4_bypass_forces_parent_rate.2 bypass_state 2 apll_clk apll_pll rfl rfl
      (by decide) 0 rfl⟩

set_option maxRecDepth 4000 in
/-- C3: for any tolerance, the PLL rate-setting search on the apll
descriptor with `Fin` = 24 MHz and target 1 008 MHz succeeds, returning
an (M, N, OD) triple from the descriptor's candidate space (M, N within
the bit-width bounds, OD with a valid non-(-1) raw encoding) whose
computed rate hits the target exactly. -/
theorem c3_apll_search_succeeds : ∀ tol : Nat, ∃ m n od : Nat,
    pll_set_rate_search apll_pll 24000000 1008000000 tol = some (m, n, od) ∧
    (m, n, od) ∈ pll_candidates apll_pll ∧
    (od_encode apll_pll.od_encoding od).isSome = true ∧
    pll_calc_rate apll_pll 24000000 m n od = 1008000000 := by
  intro tol
  have h1 : (1 : Nat) ∈ validOds apll_pll := by decide
  have hmem : ((21 : Nat), (1 : Nat), (1 : Nat)) ∈ pll_candidates apll_pll := by
    unfold pll_candidates
    refine List.mem_flatMap.mpr ⟨20, List.mem_range.mpr (by decide), ?_⟩
    refine List.mem_flatMap.mpr ⟨0, List.mem_range.mpr (by decide), ?_⟩
    exact List.mem_map.mpr ⟨1, h1, rfl⟩
  cases hcand : pll_candidates apll_pll with
  | nil => rw [hcand] at hmem; cases hmem
  | cons c0 cs =>
    have hmem' : ((21 : Nat), (1 : Nat), (1 : Nat)) ∈ c0 :: cs := hcand ▸ hmem
    have hle : pllErr apll_pll 24000000 1008000000
        (cs.foldl (pickBest apll_pll 24000000 1008000000) c0) ≤
        pllErr apll_pll 24000000 1008000000 (21, 1, 1) := by
      rcases List.mem_cons.mp hmem' with heq | h
      · rw [← heq]
        exact foldl_pickBest_le_init apll_pll 24000000 1008000000 cs (21, 1, 1)
      · exact foldl_pickBest_le_mem apll_pll 24000000 1008000000 cs c0 _ h
    have herr0 : pllErr apll_pll 24000000 1008000000 (21, 1, 1) = 0 := by decide
    have hbest0 : pllErr apll_pll 24000000 1008000000
        (cs.foldl (pickBest apll_pll 24000000 1008000000) c0) = 0 := by
      omega
    have hrate : pll_calc_rate apll_pll 24000000
        (cs.foldl (pickBest apll_pll 24000000 1008000000) c0).1
        (cs.foldl (pickBest apll_pll 24000000 1008000000) c0).2.1
        (cs.foldl (pickBest apll_pll 24000000 1008000000) c0).2.2 = 1008000000 := by
      unfold pllErr at hbest0
      exact errTo_eq_zero _ _ hbest0
    have hbm : cs.foldl (pickBest apll_pll 24000000 1008000000) c0 ∈
        pll_candidates apll_pll := by
      rw [hcand]
      exact foldl_pickBest_mem apll_pll 24000000 1008000000 cs c0
    have hsearch : pll_set_rate_search apll_pll 24000000 1008000000 tol =
        some (cs.foldl (pickBest apll_pll 24000000 1008000000) c0) := by
      simp only [pll_set_rate_search, pll_search_best, hcand]
      rw [hbest0, if_pos (Nat.zero_le tol)]
    have hstruct := hbm
    unfold pll_candidates at hstruct
    obtain ⟨mr, _, hrest⟩ := List.mem_flatMap.mp hstruct
    obtain ⟨nr, _, hmap⟩ := List.mem_flatMap.mp hrest
    obtain ⟨od, hod, heq⟩ := List.mem_map.mp hmap
    refine ⟨mr + apll_pll.m_offset, nr + apll_pll.n_offset, od, ?_, ?_, ?_, ?_⟩
    · rw [heq]
      exact hsearch
    · rw [heq]
      exact foldl_pickBest_mem apll_pll 24000000 1008000000 cs c0
    · exact validOds_encode apll_pll od hod
    · rw [← heq] at hrate
      exact hrate
